import Mathlib

/-!
A verification development for the transfer orchestrator of the
`rclone_plus` repository (Electron main process, `src/main/services/`).

The TypeScript services are shallowly embedded as Lean functions:

* `groupBatches` — the first-fit batching loop of
  `TransferService.processItem` (ssh.service.ts, lines 901-931);
* `prepareSourceFiles` — the single-vs-split decision and item creation of
  `TransferService.prepareSourceFiles` (lines 791-852);
* `partFileName` — the part naming of `processItem` (lines 940-945);
* `overallPercent` — the job-level progress mapping of the upload callback
  in `processItem` (line 990);
* `retryItem` — `TransferService.retryItem` (lines 1191-1203);
* `listDirectoryModel` — the post-`readdir` processing of
  `SSHService.listDirectory` (lines 355-418);
* the guarded SSH operations of `SSHService` (exec, execWithProgress,
  uploadFile, downloadFile, listDirectory) over the connection pool;
* `startJobPrep` — the destination-preparation phase of
  `TransferService.startJob` (lines 541-546 with the catch at 676-682);
* `downloadWorker` — the remote-command trace of the download worker and
  `downloadFileToDestination` (lines 585-660 and 717-773).

Machine integers do not overflow in the modelled ranges, so sizes,
timestamps and percentages are `Nat`; the one fractional computation
(`Math.round` in the progress mapping) is over `ℚ`.
-/

/-- A source file as parsed from the `find … stat` output in
`processItem`: byte size, absolute path, and path relative to the source
folder (ssh.service.ts lines 884-895). -/
structure SrcFile where
  size : Nat
  path : String
  relativePath : String
deriving DecidableEq, Repr

/-- Total byte size of a batch of files. -/
def sizeSum (batch : List SrcFile) : Nat :=
  (batch.map SrcFile.size).sum

/-- One iteration of the batching loop of `processItem`
(ssh.service.ts lines 905-926).  State is
`(batches, currentBatch, currentBatchSize)`.

```
if (file.size > limitBytes) {
    if (currentBatch.length > 0) { batches.push(currentBatch); currentBatch = []; currentBatchSize = 0; }
    batches.push([file]); continue;
}
if (currentBatchSize + file.size > limitBytes && currentBatch.length > 0) {
    batches.push(currentBatch); currentBatch = []; currentBatchSize = 0;
}
currentBatch.push(file); currentBatchSize += file.size;
```
-/
def batchStep (limitBytes : Nat) (st : List (List SrcFile) × List SrcFile × Nat)
    (file : SrcFile) : List (List SrcFile) × List SrcFile × Nat :=
  if limitBytes < file.size then
    -- If single file exceeds limit, put it in its own batch
    if st.2.1 ≠ [] then
      (st.1 ++ [st.2.1] ++ [[file]], [], 0)
    else
      (st.1 ++ [[file]], st.2.1, st.2.2)
  else if limitBytes < st.2.2 + file.size ∧ st.2.1 ≠ [] then
    -- Flush the current batch, then append the file to the new empty one
    (st.1 ++ [st.2.1], [file], file.size)
  else
    (st.1, st.2.1 ++ [file], st.2.2 + file.size)

/-- The whole batching loop of `processItem` (ssh.service.ts lines
901-931), including the final "don't forget the last batch" flush. -/
def groupBatches (limitBytes : Nat) (files : List SrcFile) : List (List SrcFile) :=
  let st := files.foldl (batchStep limitBytes) ([], [], 0)
  if st.2.1 ≠ [] then st.1 ++ [st.2.1] else st.1

/-- Loop invariant of the batching loop: every emitted batch is within the
limit or a singleton, and the running size matches (and bounds) the
current batch. -/
def GoodState (B : Nat) (st : List (List SrcFile) × List SrcFile × Nat) : Prop :=
  (∀ b ∈ st.1, sizeSum b ≤ B ∨ b.length = 1) ∧
    st.2.2 = sizeSum st.2.1 ∧ sizeSum st.2.1 ≤ B

lemma batchStep_good {B : Nat} {st : List (List SrcFile) × List SrcFile × Nat}
    (h : GoodState B st) (f : SrcFile) : GoodState B (batchStep B st f) := by
  obtain ⟨hb, hsz, hle⟩ := h
  unfold batchStep
  split
  · -- B < f.size: the file goes into a batch of its own
    split
    · refine ⟨?_, by simp [sizeSum], by simp [sizeSum]⟩
      intro b hbmem
      simp only [List.mem_append, List.mem_singleton] at hbmem
      rcases hbmem with (hbm | rfl) | rfl
      · exact hb b hbm
      · exact Or.inl hle
      · exact Or.inr rfl
    · refine ⟨?_, hsz, hle⟩
      intro b hbmem
      simp only [List.mem_append, List.mem_singleton] at hbmem
      rcases hbmem with hbm | rfl
      · exact hb b hbm
      · exact Or.inr rfl
  · split
    · -- flush the full current batch, start a fresh one with the file
      rename_i h1 h2
      refine ⟨?_, by simp [sizeSum], ?_⟩
      · intro b hbmem
        simp only [List.mem_append, List.mem_singleton] at hbmem
        rcases hbmem with hbm | rfl
        · exact hb b hbm
        · exact Or.inl hle
      · have : f.size ≤ B := le_of_not_lt h1
        simpa [sizeSum] using this
    · -- append to the current batch
      rename_i h1 h2
      refine ⟨hb, by simp [sizeSum, hsz], ?_⟩
      by_cases h3 : st.2.1 = []
      · have hz : st.2.2 = 0 := by simpa [sizeSum, h3] using hsz
        have hf : f.size ≤ B := le_of_not_lt h1
        simpa [sizeSum, h3] using hf
      · have hnotlt : ¬ B < st.2.2 + f.size := fun hlt => h2 ⟨hlt, h3⟩
        have hsum : sizeSum (st.2.1 ++ [f]) = st.2.2 + f.size := by
          simp [sizeSum, hsz]
        simp only [hsum]
        omega

lemma foldl_batchStep_good {B : Nat} (files : List SrcFile)
    {st : List (List SrcFile) × List SrcFile × Nat} (h : GoodState B st) :
    GoodState B (files.foldl (batchStep B) st) := by
  induction files generalizing st with
  | nil => exact h
  | cons f rest ih => exact ih (batchStep_good h f)

/-- C1: every batch produced by the splitting loop of `processItem` has
total size at most the limit, or is a singleton (a file whose size exceeds
the limit always forms a batch of one). -/
theorem planner_batch_le_or_singleton (B : Nat) (files : List SrcFile) :
    ∀ b ∈ groupBatches B files, sizeSum b ≤ B ∨ b.length = 1 := by
  have hinit : GoodState B (([], [], 0) : List (List SrcFile) × List SrcFile × Nat) :=
    ⟨by simp, by simp [sizeSum], by simp [sizeSum]⟩
  have hfin := foldl_batchStep_good files hinit
  obtain ⟨hb, hsz, hle⟩ := hfin
  intro b hbmem
  simp only [groupBatches] at hbmem
  split at hbmem
  · simp only [List.mem_append, List.mem_singleton] at hbmem
    rcases hbmem with hbm | rfl
    · exact hb b hbm
    · exact Or.inl hle
  · exact hb b hbmem

/-- C1 witness: with limit 10 and files of sizes 4, 5, 3, 20, the batch
holding the oversized file satisfies the bound-or-singleton property. -/
theorem planner_batch_le_or_singleton_w :
    sizeSum [⟨20, "/s/d", "d"⟩] ≤ 10 ∨ ([(⟨20, "/s/d", "d"⟩ : SrcFile)]).length = 1 :=
  planner_batch_le_or_singleton 10
    [⟨4, "/s/a", "a"⟩, ⟨5, "/s/b", "b"⟩, ⟨3, "/s/c", "c"⟩, ⟨20, "/s/d", "d"⟩]
    [⟨20, "/s/d", "d"⟩] (by decide)

lemma batchStep_flatten (B : Nat) (st : List (List SrcFile) × List SrcFile × Nat)
    (f : SrcFile) :
    (batchStep B st f).1.flatten ++ (batchStep B st f).2.1 =
      st.1.flatten ++ st.2.1 ++ [f] := by
  unfold batchStep
  split
  · split
    · simp
    · rename_i h2
      simp only [ne_eq, not_not] at h2
      simp [h2]
  · split
    · simp
    · simp

lemma foldl_batchStep_flatten (B : Nat) (files : List SrcFile)
    (st : List (List SrcFile) × List SrcFile × Nat) :
    (files.foldl (batchStep B) st).1.flatten ++ (files.foldl (batchStep B) st).2.1 =
      st.1.flatten ++ st.2.1 ++ files := by
  induction files generalizing st with
  | nil => simp
  | cons f rest ih =>
    calc (((f :: rest).foldl (batchStep B) st).1.flatten ++
            ((f :: rest).foldl (batchStep B) st).2.1)
        = (batchStep B st f).1.flatten ++ (batchStep B st f).2.1 ++ rest := by
          simpa using ih (batchStep B st f)
      _ = st.1.flatten ++ st.2.1 ++ [f] ++ rest := by rw [batchStep_flatten]
      _ = st.1.flatten ++ st.2.1 ++ (f :: rest) := by simp

/-- C2: the concatenation of the batches produced by the splitting loop,
in order, is exactly the enumerated file list — no duplication, no
omission, enumeration order preserved across batch boundaries. -/
theorem planner_flatten_eq (B : Nat) (files : List SrcFile) :
    (groupBatches B files).flatten = files := by
  have h := foldl_batchStep_flatten B files ([], [], 0)
  simp only [List.flatten_nil, List.nil_append] at h
  simp only [groupBatches]
  split
  · simpa using h
  · rename_i hc
    simp only [ne_eq, not_not] at hc
    rw [hc] at h
    simpa using h

/-- Status values of `TransferItem.status` as used by the transfer
service (shared/types.ts). -/
inductive ItemStatus
  | pending | zipping | uploading | uploaded | completed | failed
deriving DecidableEq, Repr

/-- The fields of a `TransferItem` (shared/types.ts) that the preparation
and retry paths read or write.  Timestamps (`createdAt`, `completedAt`)
and the transient `speed` field are elided. -/
structure TransferItem where
  id : String
  fileName : String
  sourcePath : String
  drivePath : String
  destinationPath : String
  status : ItemStatus
  progress : Nat
  retryCount : Nat
  error : Option String := none
deriving DecidableEq, Repr

/-- The `_zipInfo` record stashed on the job by `prepareSourceFiles`
(ssh.service.ts lines 807-813). -/
structure ZipInfo where
  needsSplit : Bool
  limitMB : Nat
  baseZipName : String
  baseZipPath : String
  totalBytes : Nat
deriving DecidableEq, Repr

/-- Model of `TransferService.prepareSourceFiles` (ssh.service.ts lines 791-852)
after the `du -sb` size query: computes `limitBytes`, fixes the base name
`transfer_<epoch_ms>`, records `needsSplit = totalBytes > limitBytes`,
and in both branches pushes a single pending item named
`<base>.zip` (the split branch's item is a placeholder).  The random
suffix of `generateId` is abstracted as the `itemId` argument. -/
def prepareSourceFiles (zipSizeLimitMB totalBytes timestamp : Nat)
    (driveFolder destinationFolder itemId : String) : ZipInfo × List TransferItem :=
  let limitBytes := zipSizeLimitMB * 1024 * 1024
  let baseZipName := "transfer_" ++ toString timestamp
  let baseZipPath := "/tmp/" ++ baseZipName ++ ".zip"
  let zipInfo : ZipInfo :=
    { needsSplit := decide (limitBytes < totalBytes), limitMB := zipSizeLimitMB,
      baseZipName := baseZipName, baseZipPath := baseZipPath, totalBytes := totalBytes }
  if totalBytes ≤ limitBytes then
    -- Single zip file - no splitting needed
    (zipInfo,
      [{ id := itemId, fileName := baseZipName ++ ".zip", sourcePath := baseZipPath,
         drivePath := driveFolder ++ "/" ++ baseZipName ++ ".zip",
         destinationPath := destinationFolder, status := ItemStatus.pending,
         progress := 0, retryCount := 0 }])
  else
    -- Placeholder item - actual split files are discovered after zipping
    (zipInfo,
      [{ id := itemId, fileName := baseZipName ++ ".zip", sourcePath := baseZipPath,
         drivePath := driveFolder ++ "/" ++ baseZipName ++ ".zip",
         destinationPath := destinationFolder, status := ItemStatus.pending,
         progress := 0, retryCount := 0 }])

lemma prepareSourceFiles_needsSplit (mb total ts : Nat) (df dest iid : String) :
    (prepareSourceFiles mb total ts df dest iid).1.needsSplit =
      decide (mb * 1024 * 1024 < total) := by
  simp only [prepareSourceFiles]
  split <;> rfl

lemma prepareSourceFiles_items (mb total ts : Nat) (df dest iid : String) :
    (prepareSourceFiles mb total ts df dest iid).2 =
      [{ id := iid, fileName := "transfer_" ++ toString ts ++ ".zip",
         sourcePath := "/tmp/" ++ ("transfer_" ++ toString ts) ++ ".zip",
         drivePath := df ++ "/" ++ ("transfer_" ++ toString ts) ++ ".zip",
         destinationPath := dest, status := ItemStatus.pending,
         progress := 0, retryCount := 0 }] := by
  simp only [prepareSourceFiles]
  split <;> rfl

/-- C5: the single-archive path (`needsSplit = false`, one pending item
named `transfer_<epoch_ms>.zip`) is taken exactly when the source total is
at most `zipSizeLimitMB·1024·1024` bytes; in particular a total of exactly
the limit stays on the single-archive path. -/
theorem prepareSourceFiles_single_iff (mb total ts : Nat) (df dest iid : String) :
    ((prepareSourceFiles mb total ts df dest iid).1.needsSplit = false ∧
      ∃ it, (prepareSourceFiles mb total ts df dest iid).2 = [it] ∧
        it.fileName = "transfer_" ++ toString ts ++ ".zip") ↔
      total ≤ mb * 1024 * 1024 := by
  rw [prepareSourceFiles_needsSplit]
  constructor
  · rintro ⟨hns, -⟩
    simpa using of_decide_eq_false hns
  · intro hle
    refine ⟨by simpa using Nat.not_lt.mpr hle, ?_⟩
    exact ⟨_, prepareSourceFiles_items mb total ts df dest iid, rfl⟩

/-- C5 witness: with a 1 MiB limit and a source of exactly 1048576 bytes,
the single-archive path is taken. -/
theorem prepareSourceFiles_single_iff_w :
    (prepareSourceFiles 1 1048576 7 "drv" "dst" "item_1").1.needsSplit = false ∧
      ∃ it, (prepareSourceFiles 1 1048576 7 "drv" "dst" "item_1").2 = [it] ∧
        it.fileName = "transfer_" ++ toString 7 ++ ".zip" :=
  (prepareSourceFiles_single_iff 1 1048576 7 "drv" "dst" "item_1").mpr (by norm_num)

/-- The part number `String(i + 1).padStart(3, '0')` from `processItem`
(ssh.service.ts line 942). -/
def partNumStr (i : Nat) : String :=
  let s := toString (i + 1)
  if s.length < 3 then String.mk (List.replicate (3 - s.length) '0') ++ s else s

/-- The part-name choice of `processItem` (ssh.service.ts line 943):
`batches.length === 1 ? base.zip : base.partNNN.zip`. -/
def partFileName (baseName : String) (numBatches i : Nat) : String :=
  if numBatches = 1 then baseName ++ ".zip"
  else baseName ++ ".part" ++ partNumStr i ++ ".zip"

/-- C6 counterexample: a split run (limit 4 bytes, one file of 5 bytes, so
`needsSplit` is true) produces exactly one batch, and `processItem` then
names the archive `transfer_1700000000000.zip`, not the
`.part001.zip` form the claim requires. -/
theorem split_single_batch_name_cex :
    (4 : Nat) < 5 ∧
    (groupBatches 4 [⟨5, "/s/a", "a"⟩]).length = 1 ∧
    partFileName "transfer_1700000000000" (groupBatches 4 [⟨5, "/s/a", "a"⟩]).length 0 =
      "transfer_1700000000000.zip" ∧
    "transfer_1700000000000.zip" ≠ "transfer_1700000000000.part001.zip" := by
  refine ⟨by norm_num, by decide, by decide, by decide⟩

/-- C6 amended: a split run whose batching yields exactly one batch (for
example a single file strictly larger than the limit) produces the plain
`<base>.zip` name; the `.part<NNN>.zip` form is used iff there are at
least two batches (`numBatches ≠ 1`). -/
theorem split_single_batch_plain_name (B : Nat) (f : SrcFile) (base : String)
    (hgt : B < f.size) :
    groupBatches B [f] = [[f]] ∧
    partFileName base (groupBatches B [f]).length 0 = base ++ ".zip" ∧
    ∀ N i, partFileName base N i = base ++ ".zip" ↔ N = 1 := by
  have hgb : groupBatches B [f] = [[f]] := by
    simp [groupBatches, batchStep, hgt]
  refine ⟨hgb, by rw [hgb]; rfl, ?_⟩
  intro N i
  constructor
  · intro hname
    by_contra hN
    rw [partFileName, if_neg hN] at hname
    have := congrArg String.length hname
    simp only [String.length_append] at this
    have h5 : (".part").length = 5 := rfl
    have h4 : (".zip").length = 4 := rfl
    omega
  · intro hN
    rw [partFileName, if_pos hN]

/-- C6 amended witness: limit 4, one file of size 5. -/
theorem split_single_batch_plain_name_w :
    groupBatches 4 [⟨5, "/s/a", "a"⟩] = [[⟨5, "/s/a", "a"⟩]] ∧
    partFileName "transfer_9" (groupBatches 4 [⟨5, "/s/a", "a"⟩]).length 0 =
      "transfer_9" ++ ".zip" ∧
    ∀ N i, partFileName "transfer_9" N i = "transfer_9" ++ ".zip" ↔ N = 1 :=
  split_single_batch_plain_name 4 ⟨5, "/s/a", "a"⟩ "transfer_9" (by norm_num)

/-- The job-level progress mapping of the upload progress callback in
`processItem` (ssh.service.ts line 990):
`Math.round(((i + percent / 100) / batches.length) * 100)`.
On non-negative arguments JavaScript `Math.round x = ⌊x + 1/2⌋`, which is
Mathlib's `round`. -/
def overallPercent (i numBatches percent : Nat) : ℤ :=
  round ((((i : ℚ) + (percent : ℚ) / 100) / (numBatches : ℚ)) * 100)

/-- C7 counterexample: at batch i = 0 of N = 3 with per-part percentage
p = 50, the code broadcasts round(50/3) = 17, while the claimed
⌊((i + p/100)/N)·100⌋ is 16. -/
theorem overallPercent_floor_cex :
    overallPercent 0 3 50 = 17 ∧
      ⌊((((0 : Nat) : ℚ) + ((50 : Nat) : ℚ) / 100) / ((3 : Nat) : ℚ)) * 100⌋ = 16 := by
  constructor
  · unfold overallPercent
    rw [round_eq, Int.floor_eq_iff]
    norm_num
  · rw [Int.floor_eq_iff]
    norm_num

/-- C7 amended: the broadcast job-level percentage is the half-up rounding
⌊(100·i + p)/N + 1/2⌋ (JavaScript `Math.round`), not the floor. -/
theorem overallPercent_is_round (i N p : Nat) (h : 0 < N) :
    overallPercent i N p = ⌊(((100 * i + p : Nat) : ℚ) / ((N : Nat) : ℚ)) + 1 / 2⌋ := by
  unfold overallPercent
  rw [round_eq]
  congr 1
  have hN : ((N : ℚ)) ≠ 0 := Nat.cast_ne_zero.mpr h.ne'
  push_cast
  field_simp
  ring

/-- C7 amended witness: i = 0, N = 3, p = 50 gives ⌊50/3 + 1/2⌋ = 17. -/
theorem overallPercent_is_round_w :
    overallPercent 0 3 50 = ⌊(((100 * 0 + 50 : Nat) : ℚ) / ((3 : Nat) : ℚ)) + 1 / 2⌋ :=
  overallPercent_is_round 0 3 50 (by norm_num)

/-- A stored job as `configService.getJobById` returns it: its id and its
items (the other job fields play no role in `retryItem`). -/
structure StoredJob where
  id : String
  items : List TransferItem
deriving DecidableEq, Repr

/-- The in-place reset a successful `retryItem` performs on the found item
(ssh.service.ts lines 1198-1200):
`item.status = 'pending'; item.error = undefined; item.retryCount++`. -/
def resetItem (it : TransferItem) : TransferItem :=
  { it with status := ItemStatus.pending, error := none, retryCount := it.retryCount + 1 }

/-- JavaScript `Array.prototype.find` returns the first match and the
service mutates that object in place; modelled as replacing the first
element whose key matches. -/
def replaceFirst {α : Type} (key : α → String) (target : String) (f : α → α) :
    List α → List α
  | [] => []
  | x :: rest =>
    if key x = target then f x :: rest else x :: replaceFirst key target f rest

/-- The item that `retryItem jobId itemId` resolves: the first job with
the given id, then the first of its items with the given id. -/
def targetItem (jobs : List StoredJob) (jobId itemId : String) : Option TransferItem :=
  (jobs.find? (fun j => j.id = jobId)).bind
    (fun j => j.items.find? (fun it => it.id = itemId))

/-- Model of `TransferService.retryItem` (ssh.service.ts lines 1191-1203).  Returns
the updated job store together with the reset item on which `processItem`
is then re-run (`none` when a guard made the call a no-op). -/
def retryItem (jobs : List StoredJob) (jobId itemId : String) :
    List StoredJob × Option TransferItem :=
  match jobs.find? (fun j => j.id = jobId) with
  | none => (jobs, none)
  | some job =>
    match job.items.find? (fun it => it.id = itemId) with
    | none => (jobs, none)
    | some item =>
      if item.status ≠ ItemStatus.failed then (jobs, none)
      else
        (replaceFirst StoredJob.id jobId
            (fun j => { j with items := replaceFirst TransferItem.id itemId resetItem j.items })
            jobs,
          some (resetItem item))

lemma find?_replaceFirst_of_ne {α : Type} (key : α → String) (t u : String)
    (f : α → α) (hf : ∀ x, key (f x) = key x) (hne : u ≠ t) :
    ∀ l : List α, (replaceFirst key t f l).find? (fun x => key x = u) =
      l.find? (fun x => key x = u)
  | [] => rfl
  | x :: rest => by
    by_cases hx : key x = t
    · rw [replaceFirst, if_pos hx]
      have h1 : ¬ key (f x) = u := by
        rw [hf, hx]
        exact fun h => hne h.symm
      have h2 : ¬ key x = u := by
        rw [hx]
        exact fun h => hne h.symm
      simp [List.find?, h1, h2]
    · rw [replaceFirst, if_neg hx]
      by_cases hu : key x = u
      · simp [List.find?, hu]
      · simp [List.find?, hu, find?_replaceFirst_of_ne key t u f hf hne rest]

lemma find?_replaceFirst_self {α : Type} (key : α → String) (t : String)
    (f : α → α) (hf : ∀ x, key (f x) = key x) :
    ∀ (l : List α) (x : α), l.find? (fun y => key y = t) = some x →
      (replaceFirst key t f l).find? (fun y => key y = t) = some (f x)
  | [], x, hx => by simp [List.find?] at hx
  | y :: rest, x, hx => by
    by_cases hy : key y = t
    · rw [List.find?_cons_of_pos _ (by simpa using hy)] at hx
      obtain rfl : y = x := by simpa using hx
      rw [replaceFirst, if_pos hy]
      exact List.find?_cons_of_pos _ (by simpa [hf] using hy)
    · rw [List.find?_cons_of_neg _ (by simpa using hy)] at hx
      rw [replaceFirst, if_neg hy, List.find?_cons_of_neg _ (by simpa using hy)]
      exact find?_replaceFirst_self key t f hf rest x hx

/-- C8: `retryItem(jobId, itemId)` on an existing item whose status is
`failed` resets it to `pending`, clears its error, increments its
`retryCount` by exactly one, and re-runs `processItem` on exactly that
item; on a missing job, a missing item, or an item that is not `failed`,
it changes nothing and runs nothing. -/
theorem retryItem_spec (jobs : List StoredJob) (jobId itemId : String) :
    (targetItem jobs jobId itemId = none → retryItem jobs jobId itemId = (jobs, none)) ∧
    (∀ it, targetItem jobs jobId itemId = some it → it.status ≠ ItemStatus.failed →
        retryItem jobs jobId itemId = (jobs, none)) ∧
    (∀ it, targetItem jobs jobId itemId = some it → it.status = ItemStatus.failed →
        (retryItem jobs jobId itemId).2 = some (resetItem it) ∧
        targetItem (retryItem jobs jobId itemId).1 jobId itemId = some (resetItem it) ∧
        (resetItem it).status = ItemStatus.pending ∧
        (resetItem it).error = none ∧
        (resetItem it).retryCount = it.retryCount + 1 ∧
        ∀ jid iid, ¬ (jid = jobId ∧ iid = itemId) →
          targetItem (retryItem jobs jobId itemId).1 jid iid = targetItem jobs jid iid) := by
  refine ⟨?_, ?_, ?_⟩
  · intro hnone
    unfold targetItem at hnone
    cases hj : jobs.find? (fun j => j.id = jobId) with
    | none => simp only [retryItem, hj]
    | some job =>
      rw [hj] at hnone
      simp only [Option.some_bind] at hnone
      simp only [retryItem, hj, hnone]
  · intro it hit hst
    unfold targetItem at hit
    cases hj : jobs.find? (fun j => j.id = jobId) with
    | none => simp only [retryItem, hj]
    | some job =>
      rw [hj] at hit
      simp only [Option.some_bind] at hit
      simp only [retryItem, hj, hit]
      rw [if_pos hst]
  · intro it hit hst
    unfold targetItem at hit
    cases hj : jobs.find? (fun j => j.id = jobId) with
    | none => rw [hj] at hit; simp at hit
    | some job =>
      rw [hj] at hit
      simp only [Option.some_bind] at hit
      have hres : retryItem jobs jobId itemId =
          (replaceFirst StoredJob.id jobId
              (fun j => { j with items := replaceFirst TransferItem.id itemId resetItem j.items })
              jobs,
            some (resetItem it)) := by
        simp only [retryItem, hj, hit]
        rw [if_neg (not_not_intro hst)]
      rw [hres]
      have hfj : ∀ j : StoredJob,
          StoredJob.id { j with items := replaceFirst TransferItem.id itemId resetItem j.items } =
            StoredJob.id j := fun _ => rfl
      have hfi : ∀ x : TransferItem, TransferItem.id (resetItem x) = TransferItem.id x :=
        fun _ => rfl
      refine ⟨rfl, ?_, rfl, rfl, rfl, ?_⟩
      · unfold targetItem
        rw [find?_replaceFirst_self StoredJob.id jobId _ hfj jobs job hj]
        simp only [Option.some_bind]
        exact find?_replaceFirst_self TransferItem.id itemId resetItem hfi job.items it hit
      · intro jid iid hnot
        by_cases hjid : jid = jobId
        · subst hjid
          have hiid : iid ≠ itemId := fun h => hnot ⟨rfl, h⟩
          unfold targetItem
          rw [find?_replaceFirst_self StoredJob.id jid _ hfj jobs job hj, hj]
          simp only [Option.some_bind]
          exact find?_replaceFirst_of_ne TransferItem.id itemId iid resetItem hfi hiid job.items
        · unfold targetItem
          rw [find?_replaceFirst_of_ne StoredJob.id jobId jid _ hfj hjid jobs]

/-- A concrete failed item and one-job store for the C8 witness. -/
def demoFailedItem : TransferItem :=
  { id := "i1", fileName := "transfer_1.zip", sourcePath := "/tmp/transfer_1.zip",
    drivePath := "drv/transfer_1.zip", destinationPath := "/dst",
    status := ItemStatus.failed, progress := 37, retryCount := 2, error := some "boom" }

def demoJobs : List StoredJob := [{ id := "j1", items := [demoFailedItem] }]

/-- C8 witness: retrying the failed item of the demo store resets it and
re-runs processing on exactly it. -/
theorem retryItem_spec_w :
    (retryItem demoJobs "j1" "i1").2 = some (resetItem demoFailedItem) ∧
    targetItem (retryItem demoJobs "j1" "i1").1 "j1" "i1" = some (resetItem demoFailedItem) ∧
    (resetItem demoFailedItem).status = ItemStatus.pending ∧
    (resetItem demoFailedItem).error = none ∧
    (resetItem demoFailedItem).retryCount = demoFailedItem.retryCount + 1 := by
  have h := (retryItem_spec demoJobs "j1" "i1").2.2 demoFailedItem (by decide) (by decide)
  exact ⟨h.1, h.2.1, h.2.2.1, h.2.2.2.1, h.2.2.2.2.1⟩

/-- A raw SFTP `readdir` entry as `listDirectory` consumes it: file name,
`attrs.isDirectory()`, `attrs.size`, `attrs.mtime`. -/
structure RawEntry where
  filename : String
  isDir : Bool
  size : Nat
  mtime : Nat
deriving DecidableEq, Repr

/-- A result item of `listDirectory` (ssh.service.ts lines 360-365 and
392-397); `isDir = true` stands for `type: 'directory'`. -/
structure DirItem where
  name : String
  isDir : Bool
  size : Nat
  modifyTime : Nat
deriving DecidableEq, Repr

/-- The `map` step of `listDirectory` (lines 392-397). -/
def toDirItem (e : RawEntry) : DirItem :=
  { name := e.filename, isDir := e.isDir, size := e.size, modifyTime := e.mtime }

/-- Three-way comparison on `Nat`. -/
def natCompare (a b : Nat) : Ordering :=
  if a < b then Ordering.lt else if b < a then Ordering.gt else Ordering.eq

/-- Lexicographic comparison of lists. -/
def compareList : List Nat → List Nat → Ordering
  | [], [] => Ordering.eq
  | [], _ :: _ => Ordering.lt
  | _ :: _, [] => Ordering.gt
  | a :: as, b :: bs =>
    match natCompare a b with
    | Ordering.eq => compareList as bs
    | o => o

/-- Primary collation key of a name: the case-folded code points. -/
def foldKey (s : String) : List Nat :=
  s.data.map (fun c => c.toLower.toNat)

/-- Tertiary collation key of a name: 1 where the character is uppercase
(ICU root collation puts lowercase before uppercase at a primary tie). -/
def caseKey (s : String) : List Nat :=
  s.data.map (fun c => if c.isUpper then 1 else 0)

/-- Model of JavaScript `String.prototype.localeCompare` under the default
collation, restricted to ASCII names: compare case-folded code points
first; at a tie, lowercase sorts before uppercase at the first differing
position. -/
def localeCompareModel (a b : String) : Ordering :=
  match compareList (foldKey a) (foldKey b) with
  | Ordering.eq => compareList (caseKey a) (caseKey b)
  | o => o

/-- The sort comparator of `listDirectory` (ssh.service.ts lines 398-404):
directories first, then `a.name.localeCompare(b.name)`. -/
def entryCompare (a b : DirItem) : Ordering :=
  if a.isDir ≠ b.isDir then (if a.isDir then Ordering.lt else Ordering.gt)
  else localeCompareModel a.name b.name

/-- The boolean "not greater" form of the comparator, used to model the
stable `Array.prototype.sort` by a stable merge sort. -/
def entryLE (a b : DirItem) : Bool :=
  entryCompare a b ≠ Ordering.gt

lemma natCompare_self (a : Nat) : natCompare a a = Ordering.eq := by
  simp [natCompare]

lemma natCompare_swap (a b : Nat) : natCompare b a = (natCompare a b).swap := by
  unfold natCompare
  rcases Nat.lt_trichotomy a b with h | h | h
  · simp [h, Nat.lt_asymm h, Ordering.swap]
  · subst h
    simp [Ordering.swap]
  · simp [h, Nat.lt_asymm h, Ordering.swap]

lemma natCompare_eq_iff (a b : Nat) : natCompare a b = Ordering.eq ↔ a = b := by
  unfold natCompare
  rcases Nat.lt_trichotomy a b with h | h | h
  · simp [h, Nat.ne_of_lt h]
  · simp [h]
  · rw [if_neg (Nat.lt_asymm h), if_pos h]
    simp [(Nat.ne_of_lt h).symm]

lemma natCompare_lt_trans {a b c : Nat} (h1 : natCompare a b = Ordering.lt)
    (h2 : natCompare b c = Ordering.lt) : natCompare a c = Ordering.lt := by
  unfold natCompare at *
  split at h1
  · split at h2
    · rename_i hab hbc
      rw [if_pos (Nat.lt_trans hab hbc)]
    · split at h2 <;> simp_all
  · split at h1 <;> simp_all

lemma compareList_swap : ∀ l1 l2 : List Nat, compareList l2 l1 = (compareList l1 l2).swap
  | [], [] => rfl
  | [], _ :: _ => rfl
  | _ :: _, [] => rfl
  | a :: as, b :: bs => by
    simp only [compareList, natCompare_swap b a]
    cases natCompare b a with
    | eq => exact compareList_swap as bs
    | lt => rfl
    | gt => rfl

lemma compareList_eq_iff : ∀ l1 l2 : List Nat, compareList l1 l2 = Ordering.eq ↔ l1 = l2
  | [], [] => by simp [compareList]
  | [], _ :: _ => by simp [compareList]
  | _ :: _, [] => by simp [compareList]
  | a :: as, b :: bs => by
    simp only [compareList]
    cases hab : natCompare a b with
    | eq =>
      have := (natCompare_eq_iff a b).mp hab
      subst this
      simp [compareList_eq_iff as bs]
    | lt =>
      have hne : a ≠ b := by
        intro h
        subst h
        simp [natCompare_self] at hab
      simp [hne]
    | gt =>
      have hne : a ≠ b := by
        intro h
        subst h
        simp [natCompare_self] at hab
      simp [hne]

lemma compareList_lt_trans :
    ∀ {l1 l2 l3 : List Nat}, compareList l1 l2 = Ordering.lt →
      compareList l2 l3 = Ordering.lt → compareList l1 l3 = Ordering.lt
  | [], [], _, h1, _ => by simp [compareList] at h1
  | [], _ :: _, [], _, h2 => by simp [compareList] at h2
  | [], _ :: _, _ :: _, _, _ => by simp [compareList]
  | _ :: _, [], _, h1, _ => by simp [compareList] at h1
  | _ :: _, _ :: _, [], _, h2 => by simp [compareList] at h2
  | a :: as, b :: bs, c :: cs, h1, h2 => by
    simp only [compareList] at h1 h2 ⊢
    cases hab : natCompare a b with
    | gt => rw [hab] at h1; exact absurd h1 (by simp)
    | lt =>
      cases hbc : natCompare b c with
      | gt => rw [hbc] at h2; exact absurd h2 (by simp)
      | lt => rw [natCompare_lt_trans hab hbc]
      | eq =>
        have := (natCompare_eq_iff b c).mp hbc
        subst this
        rw [hab]
    | eq =>
      have := (natCompare_eq_iff a b).mp hab
      subst this
      rw [hab] at h1
      cases hbc : natCompare a c with
      | gt => rw [hbc] at h2; exact absurd h2 (by simp)
      | lt => rfl
      | eq =>
        have := (natCompare_eq_iff a c).mp hbc
        subst this
        rw [hbc] at h2
        exact compareList_lt_trans h1 h2

lemma compareList_le_trans {l1 l2 l3 : List Nat} (h1 : compareList l1 l2 ≠ Ordering.gt)
    (h2 : compareList l2 l3 ≠ Ordering.gt) : compareList l1 l3 ≠ Ordering.gt := by
  cases hab : compareList l1 l2 with
  | gt => exact absurd hab h1
  | eq =>
    have := (compareList_eq_iff l1 l2).mp hab
    subst this
    exact h2
  | lt =>
    cases hbc : compareList l2 l3 with
    | gt => exact absurd hbc h2
    | eq =>
      have := (compareList_eq_iff l2 l3).mp hbc
      subst this
      simp [hab]
    | lt => simp [compareList_lt_trans hab hbc]

lemma localeCompareModel_swap (a b : String) :
    localeCompareModel b a = (localeCompareModel a b).swap := by
  unfold localeCompareModel
  rw [compareList_swap (foldKey a) (foldKey b), compareList_swap (caseKey a) (caseKey b)]
  cases compareList (foldKey a) (foldKey b) with
  | eq => rfl
  | lt => rfl
  | gt => rfl

lemma localeCompareModel_le_trans {a b c : String}
    (h1 : localeCompareModel a b ≠ Ordering.gt)
    (h2 : localeCompareModel b c ≠ Ordering.gt) :
    localeCompareModel a c ≠ Ordering.gt := by
  unfold localeCompareModel at h1 h2 ⊢
  cases hab : compareList (foldKey a) (foldKey b) with
  | gt => rw [hab] at h1; simp at h1
  | lt =>
    cases hbc : compareList (foldKey b) (foldKey c) with
    | gt => rw [hbc] at h2; simp at h2
    | lt =>
      rw [compareList_lt_trans hab hbc]
      simp
    | eq =>
      have hfk := (compareList_eq_iff _ _).mp hbc
      rw [← hfk, hab]
      simp
  | eq =>
    have hfk := (compareList_eq_iff _ _).mp hab
    rw [hab] at h1
    rw [hfk]
    cases hbc : compareList (foldKey b) (foldKey c) with
    | gt => rw [hbc] at h2; simp at h2
    | lt => simp
    | eq =>
      rw [hbc] at h2
      simpa using compareList_le_trans h1 h2

lemma localeCompareModel_le_primary {a b : String}
    (h : localeCompareModel a b ≠ Ordering.gt) :
    compareList (foldKey a) (foldKey b) ≠ Ordering.gt := by
  unfold localeCompareModel at h
  cases hab : compareList (foldKey a) (foldKey b) with
  | gt => rw [hab] at h; simp at h
  | lt => simp
  | eq => simp

lemma entryCompare_swap (a b : DirItem) : entryCompare b a = (entryCompare a b).swap := by
  unfold entryCompare
  cases ha : a.isDir <;> cases hb : b.isDir <;>
    simp [ha, hb, Ordering.swap, localeCompareModel_swap a.name b.name]

lemma entryLE_total (a b : DirItem) : (entryLE a b || entryLE b a) = true := by
  simp only [entryLE]
  rw [entryCompare_swap a b]
  cases entryCompare a b with
  | eq => simp [Ordering.swap]
  | lt => simp [Ordering.swap]
  | gt => simp [Ordering.swap]

lemma entryLE_trans (a b c : DirItem) (h1 : entryLE a b = true) (h2 : entryLE b c = true) :
    entryLE a c = true := by
  simp only [entryLE, decide_eq_true_eq] at h1 h2 ⊢
  unfold entryCompare at h1 h2 ⊢
  cases ha : a.isDir <;> cases hb : b.isDir <;> cases hc : c.isDir <;>
      simp [ha, hb, hc] at h1 h2 ⊢ <;>
    exact localeCompareModel_le_trans h1 h2

/-- The ordering the claim asserts on the listing: directories strictly
before files, otherwise case-insensitively by name (names equal ignoring
case are unconstrained). -/
def ClaimLE (a b : DirItem) : Prop :=
  (a.isDir = true ∧ b.isDir = false) ∨
    (a.isDir = b.isDir ∧ compareList (foldKey a.name) (foldKey b.name) ≠ Ordering.gt)

lemma entryLE_claimLE {a b : DirItem} (h : entryLE a b = true) : ClaimLE a b := by
  simp only [entryLE, decide_eq_true_eq] at h
  unfold entryCompare at h
  by_cases hd : a.isDir = b.isDir
  · rw [if_neg (not_not_intro hd)] at h
    exact Or.inr ⟨hd, localeCompareModel_le_primary h⟩
  · rw [if_pos hd] at h
    cases ha : a.isDir with
    | true =>
      cases hb : b.isDir with
      | false => exact Or.inl ⟨ha, hb⟩
      | true => exact absurd (ha.trans hb.symm) hd
    | false =>
      rw [ha] at h
      simp at h

/-- The hidden-entry test `item.filename.startsWith('.')` of
`listDirectory` (ssh.service.ts line 391), on the code points. -/
def startsWithDot (s : String) : Bool :=
  match s.data with
  | [] => false
  | c :: _ => c = '.'

/-- The filtered, mapped and sorted listing built by `listDirectory`
(ssh.service.ts lines 390-404); JavaScript's stable `Array.prototype.sort`
is modelled by the stable merge sort over the same comparator. -/
def sortedListing (list : List RawEntry) : List DirItem :=
  ((list.filter (fun e => !startsWithDot e.filename)).map toDirItem).mergeSort entryLE

/-- The result record of `listDirectory`. -/
structure ListDirResult where
  items : List DirItem
  total : Nat
  hasMore : Bool
deriving DecidableEq, Repr

/-- Model of `SSHService.listDirectory` after the SFTP `readdir` succeeds
(ssh.service.ts lines 374-414).  `limitOpt`/`offsetOpt` carry the
caller's option values with `0` standing for an absent field — the source
defaults both with `||` (`options?.limit || 50`, `options?.offset || 0`),
so a passed `0` behaves like an absent one. -/
def listDirectoryModel (list : List RawEntry) (limitOpt offsetOpt : Nat) : ListDirResult :=
  let limit := if limitOpt = 0 then 50 else limitOpt
  let offset := if offsetOpt = 0 then 0 else offsetOpt
  let allItems := sortedListing list
  let total := allItems.length
  let paginatedItems := (allItems.drop offset).take limit
  { items := paginatedItems, total := total, hasMore := decide (offset + limit < total) }

/-- C9 counterexample: with a single visible file and options
`{limit: 0, offset: 0}`, the claim's slice [0, 0+0) is empty, but
`options?.limit || 50` makes the code fall back to 50 and return the
entry. -/
theorem listDirectory_limit0_cex :
    (listDirectoryModel [⟨"a.txt", false, 3, 5⟩] 0 0).items =
      [{ name := "a.txt", isDir := false, size := 3, modifyTime := 5 }] ∧
    ((sortedListing [⟨"a.txt", false, 3, 5⟩]).drop 0).take 0 = [] ∧
    (listDirectoryModel [⟨"a.txt", false, 3, 5⟩] 0 0).items ≠ [] := by
  have hdot : (!startsWithDot "a.txt") = true := by decide
  have hsorted : sortedListing [⟨"a.txt", false, 3, 5⟩] =
      [{ name := "a.txt", isDir := false, size := 3, modifyTime := 5 }] := by
    simp [sortedListing, List.filter_cons, hdot, toDirItem]
  refine ⟨?_, by simp, ?_⟩
  · simp [listDirectoryModel, hsorted]
  · simp [listDirectoryModel, hsorted]

/-- C9 amended: with the effective limit L = (limit = 0 ? 50 : limit) —
the `||`-default of the source — `listDirectory` hides dot-entries, sorts
directories strictly before files and otherwise case-insensitively by
name, returns the slice [offset, offset+L) of that sorted list, reports
`total` = number of non-hidden entries and `hasMore` ↔ offset + L <
total. -/
theorem listDirectory_spec (list : List RawEntry) (limitOpt offsetOpt : Nat) :
    (listDirectoryModel list limitOpt offsetOpt).total =
        (list.filter (fun e => !startsWithDot e.filename)).length ∧
    (listDirectoryModel list limitOpt offsetOpt).items =
        ((sortedListing list).drop offsetOpt).take (if limitOpt = 0 then 50 else limitOpt) ∧
    ((listDirectoryModel list limitOpt offsetOpt).hasMore = true ↔
        offsetOpt + (if limitOpt = 0 then 50 else limitOpt) <
          (list.filter (fun e => !startsWithDot e.filename)).length) ∧
    (sortedListing list).Perm
        ((list.filter (fun e => !startsWithDot e.filename)).map toDirItem) ∧
    (sortedListing list).Pairwise ClaimLE := by
  have hoff : (if offsetOpt = 0 then 0 else offsetOpt) = offsetOpt := by
    split
    · omega
    · rfl
  have hlen : (sortedListing list).length =
      (list.filter (fun e => !startsWithDot e.filename)).length := by
    rw [sortedListing, (List.mergeSort_perm _ _).length_eq, List.length_map]
  refine ⟨?_, ?_, ?_, ?_, ?_⟩
  · simpa [listDirectoryModel] using hlen
  · simp [listDirectoryModel, hoff]
  · simp [listDirectoryModel, hoff, hlen]
  · exact List.mergeSort_perm _ _
  · exact (List.sorted_mergeSort entryLE_trans entryLE_total _).imp
      (fun h => entryLE_claimLE h)

/-- The error text every guarded `SSHService` operation throws when the
pool has no session for the id (ssh.service.ts lines 119, 157, 290, 317,
371). -/
def noConnectionMsg (connectionId : String) : String :=
  "No connection found with id: " ++ connectionId

/-- The remote action a guarded `SSHService` operation starts once its
pool guard passes; the subsequent transport interaction is outside the
model. -/
inductive RemoteAction
  | execCmd (connectionId command : String)
  | execStreamCmd (connectionId command : String)
  | uploadTransfer (connectionId localPath remotePath : String)
  | downloadTransfer (connectionId remotePath localPath : String)
  | readDirectory (connectionId dirPath : String)
deriving DecidableEq, Repr

/-- The `SSHService.exec` guard (ssh.service.ts lines 116-120):
`this.connections.get(id)` and `throw new Error(...)` when absent.  The
pool is `Map<string, SSHConnection>`, modelled as an association list id ↦
host; no branch of the function writes the map, so it is returned
unchanged. -/
def sshExec (pool : List (String × String)) (connectionId command : String) :
    Except String RemoteAction × List (String × String) :=
  match pool.lookup connectionId with
  | none => (Except.error (noConnectionMsg connectionId), pool)
  | some _ => (Except.ok (RemoteAction.execCmd connectionId command), pool)

/-- The `SSHService.execWithProgress` guard (lines 150-158). -/
def sshExecWithProgress (pool : List (String × String)) (connectionId command : String) :
    Except String RemoteAction × List (String × String) :=
  match pool.lookup connectionId with
  | none => (Except.error (noConnectionMsg connectionId), pool)
  | some _ => (Except.ok (RemoteAction.execStreamCmd connectionId command), pool)

/-- The `SSHService.uploadFile` guard (lines 287-291). -/
def sshUploadFile (pool : List (String × String)) (connectionId localPath remotePath : String) :
    Except String RemoteAction × List (String × String) :=
  match pool.lookup connectionId with
  | none => (Except.error (noConnectionMsg connectionId), pool)
  | some _ => (Except.ok (RemoteAction.uploadTransfer connectionId localPath remotePath), pool)

/-- The `SSHService.downloadFile` guard (lines 314-318). -/
def sshDownloadFile (pool : List (String × String)) (connectionId remotePath localPath : String) :
    Except String RemoteAction × List (String × String) :=
  match pool.lookup connectionId with
  | none => (Except.error (noConnectionMsg connectionId), pool)
  | some _ => (Except.ok (RemoteAction.downloadTransfer connectionId remotePath localPath), pool)

/-- The `SSHService.listDirectory` guard (lines 369-372). -/
def sshListDirectory (pool : List (String × String)) (connectionId dirPath : String) :
    Except String RemoteAction × List (String × String) :=
  match pool.lookup connectionId with
  | none => (Except.error (noConnectionMsg connectionId), pool)
  | some _ => (Except.ok (RemoteAction.readDirectory connectionId dirPath), pool)

/-- C10: on a connection id with no live session, each of `exec`,
`execWithProgress`, `uploadFile`, `downloadFile` and `listDirectory`
rejects with the `No connection found` error and leaves the pool exactly
as it was — nothing is dialed or evicted. -/
theorem missing_connection_rejects (pool : List (String × String))
    (connectionId command localPath remotePath dirPath : String)
    (h : pool.lookup connectionId = none) :
    sshExec pool connectionId command =
      (Except.error (noConnectionMsg connectionId), pool) ∧
    sshExecWithProgress pool connectionId command =
      (Except.error (noConnectionMsg connectionId), pool) ∧
    sshUploadFile pool connectionId localPath remotePath =
      (Except.error (noConnectionMsg connectionId), pool) ∧
    sshDownloadFile pool connectionId remotePath localPath =
      (Except.error (noConnectionMsg connectionId), pool) ∧
    sshListDirectory pool connectionId dirPath =
      (Except.error (noConnectionMsg connectionId), pool) := by
  refine ⟨?_, ?_, ?_, ?_, ?_⟩ <;>
    simp [sshExec, sshExecWithProgress, sshUploadFile, sshDownloadFile, sshListDirectory, h]

/-- C10 witness: a pool holding only `conn1` rejects `conn2`. -/
theorem missing_connection_rejects_w :
    sshExec [("conn1", "host1")] "conn2" "ls" =
      (Except.error (noConnectionMsg "conn2"), [("conn1", "host1")]) ∧
    sshListDirectory [("conn1", "host1")] "conn2" "/root" =
      (Except.error (noConnectionMsg "conn2"), [("conn1", "host1")]) := by
  have h := missing_connection_rejects [("conn1", "host1")] "conn2" "ls" "/a" "/b" "/root"
    (by decide)
  exact ⟨h.1, h.2.2.2.2⟩

/-- Outcome of one awaited step inside `prepareDestinationServer`: a
JavaScript promise either resolves with a value or rejects.  The `catch`
of `prepareDestinationServer` (ssh.service.ts lines 707-710) logs and
rethrows only when an awaited step rejects. -/
inductive StepOutcome
  | resolved (ok : Bool) (err : Option String)
  | rejected (msg : String)
deriving DecidableEq, Repr

def StepOutcome.isResolved : StepOutcome → Bool
  | resolved _ _ => true
  | rejected _ => false

/-- Outcome of `sshService.connect` (ssh.service.ts lines 24-90): every
path resolves a `\{success, error?\}` status object — dial and auth errors
resolve `\{success:false, error\}` (lines 65-69) rather than rejecting. -/
def connectOutcome (ok : Bool) (errMsg : String) : StepOutcome :=
  if ok then StepOutcome.resolved true none
  else StepOutcome.resolved false (some errMsg)

/-- Outcome of `rcloneService.checkInstalled` (rclone.service.ts lines
35-46): the body is wrapped in `try` and the `catch` returns
`\{installed:false\}`; the promise never rejects. -/
def checkInstalledOutcome (installed : Bool) : StepOutcome :=
  StepOutcome.resolved installed none

/-- Outcome of `rcloneService.install` (rclone.service.ts lines 98-137):
the body is wrapped in `try` and the `catch` returns
`\{success:false, error\}`; the promise never rejects. -/
def installOutcome (ok : Bool) (errMsg : String) : StepOutcome :=
  if ok then StepOutcome.resolved true none
  else StepOutcome.resolved false (some errMsg)

/-- Outcome of `rcloneService.copyConfigToServer` (rclone.service.ts lines
206-228): a missing local config and exec errors both produce
`\{success:false, error\}` inside the `try`/`catch`; the promise never
rejects. -/
def copyConfigOutcome (ok : Bool) (errMsg : String) : StepOutcome :=
  if ok then StepOutcome.resolved true none
  else StepOutcome.resolved false (some errMsg)

/-- The per-destination failure modes the claim names, as flags: dial,
tool presence, install, config deploy; `errMsg` is whatever message the
failing step would carry. -/
structure DestPrepFlags where
  connectOk : Bool
  rcloneInstalled : Bool
  installOk : Bool
  copyConfigOk : Bool
  errMsg : String
deriving DecidableEq, Repr

/-- The steps `prepareDestinationServer` awaits, in order (ssh.service.ts
lines 696-705): connect, checkInstalled, install only when the check said
missing, copyConfigToServer. -/
def prepDestSteps (fl : DestPrepFlags) : List StepOutcome :=
  [connectOutcome fl.connectOk fl.errMsg, checkInstalledOutcome fl.rcloneInstalled] ++
    (if fl.rcloneInstalled then [] else [installOutcome fl.installOk fl.errMsg]) ++
    [copyConfigOutcome fl.copyConfigOk fl.errMsg]

/-- Model of `prepareDestinationServer` (ssh.service.ts lines 688-711):
it awaits its steps and ignores every resolved value (none of the four
results is checked); the `catch` logs and rethrows the first rejection.
It returns `Except.error` iff some awaited step rejected. -/
def prepareDestinationServer (steps : List StepOutcome) : Except String Unit :=
  match steps.find? (fun s => ! s.isResolved) with
  | some (StepOutcome.rejected msg) => Except.error msg
  | _ => Except.ok ()

/-- What `startJob` does around the destination-preparation
`Promise.all` (ssh.service.ts lines 541-546): a rejected preparation
would reach the catch at 676-682, mark the job failed and skip step 4;
when all preparations resolve, both workers start and the download worker
dispatches every uploaded file to every destination (lines 618-621).
`DestinationProgress` records exist only from upload time (created per
part at lines 1010-1018), so preparation marks none of them. -/
structure StartJobRun where
  jobFailed : Bool
  workersRan : Bool
  downloadsAttemptedOn : List String
  destsMarkedFailedAtPrep : List String
deriving DecidableEq, Repr

/-- The step-3/step-4 control flow of `startJob` as a function of the
per-destination preparation results and the destination list. -/
def startJobFlow (preps : List (Except String Unit)) (dests : List String) : StartJobRun :=
  if preps.any (fun p => match p with | Except.error _ => true | _ => false) then
    { jobFailed := true, workersRan := false, downloadsAttemptedOn := [],
      destsMarkedFailedAtPrep := [] }
  else
    { jobFailed := false, workersRan := true, downloadsAttemptedOn := dests,
      destsMarkedFailedAtPrep := [] }

/-- Flags of a destination whose rclone install fails (connect fine, tool
missing, install fails, config copy fine). -/
def failedInstallFlags : DestPrepFlags :=
  { connectOk := true, rcloneInstalled := false, installOk := false,
    copyConfigOk := true, errMsg := "install failed" }

/-- Flags of a fully healthy destination. -/
def okFlags : DestPrepFlags :=
  { connectOk := true, rcloneInstalled := true, installOk := true,
    copyConfigOk := true, errMsg := "" }

/-- C3 counterexample: two destinations, dest2's rclone install fails.
Every preparation step resolves a status object that
`prepareDestinationServer` ignores, so preparation succeeds, the job does
not fail, the workers run, downloads ARE attempted on dest2, and no
`DestinationProgress` slot is marked failed at preparation — negating the
claim's "slots marked failed", its "no downloads attempted on that
destination", and its premise that preparation failure is observed at
all. -/
theorem dest_prep_swallowed_cex :
    prepareDestinationServer (prepDestSteps failedInstallFlags) = Except.ok () ∧
    startJobFlow
        ([okFlags, failedInstallFlags].map
          (fun fl => prepareDestinationServer (prepDestSteps fl)))
        ["dest1", "dest2"] =
      { jobFailed := false, workersRan := true,
        downloadsAttemptedOn := ["dest1", "dest2"], destsMarkedFailedAtPrep := [] } ∧
    "dest2" ∈ (startJobFlow
        ([okFlags, failedInstallFlags].map
          (fun fl => prepareDestinationServer (prepDestSteps fl)))
        ["dest1", "dest2"]).downloadsAttemptedOn ∧
    (startJobFlow
        ([okFlags, failedInstallFlags].map
          (fun fl => prepareDestinationServer (prepDestSteps fl)))
        ["dest1", "dest2"]).destsMarkedFailedAtPrep = [] :=
  ⟨rfl, by decide, by decide, by decide⟩

lemma prepDestSteps_all_resolved (fl : DestPrepFlags) :
    ∀ s ∈ prepDestSteps fl, s.isResolved = true := by
  intro s hs
  simp only [prepDestSteps, List.mem_append, List.mem_cons, List.mem_singleton,
    List.not_mem_nil, or_false] at hs
  rcases hs with ((rfl | rfl) | hs) | rfl
  · cases fl.connectOk <;> rfl
  · rfl
  · cases hinst : fl.rcloneInstalled
    · rw [hinst] at hs
      simp at hs
      rw [hs]
      cases fl.installOk <;> rfl
    · rw [hinst] at hs
      simp at hs
  · cases fl.copyConfigOk <;> rfl

lemma prepareDestinationServer_ok (fl : DestPrepFlags) :
    prepareDestinationServer (prepDestSteps fl) = Except.ok () := by
  have hfind : (prepDestSteps fl).find? (fun s => ! s.isResolved) = none := by
    rw [List.find?_eq_none]
    intro s hs
    simp [prepDestSteps_all_resolved fl s hs]
  simp only [prepareDestinationServer, hfind]

/-- C3 amended: no preparation failure is ever observed by `startJob`:
`connect`, `checkInstalled`, `install` and `copyConfigToServer` all
resolve status objects (they catch internally and never reject), and
`prepareDestinationServer` ignores those statuses, so for every
combination of per-destination failures preparation returns normally, the
job does not fail, both workers run, per-part downloads are attempted on
every destination — the failed one included — and no
`DestinationProgress` slot is marked failed at preparation time. -/
theorem dest_prep_failure_swallowed (flagss : List DestPrepFlags) (dests : List String) :
    (∀ fl ∈ flagss, prepareDestinationServer (prepDestSteps fl) = Except.ok ()) ∧
    startJobFlow
        (flagss.map (fun fl => prepareDestinationServer (prepDestSteps fl))) dests =
      { jobFailed := false, workersRan := true, downloadsAttemptedOn := dests,
        destsMarkedFailedAtPrep := [] } := by
  refine ⟨fun fl _ => prepareDestinationServer_ok fl, ?_⟩
  have hany : (flagss.map (fun fl => prepareDestinationServer (prepDestSteps fl))).any
      (fun p => match p with | Except.error _ => true | _ => false) = false := by
    rw [List.any_eq_false]
    intro p hp
    obtain ⟨fl, _, rfl⟩ := List.mem_map.mp hp
    rw [prepareDestinationServer_ok fl]
    simp
  unfold startJobFlow
  rw [if_neg (by rw [hany]; exact Bool.false_ne_true)]

/-- C3 amended witness: one destination with a failing install still gets
the workers and a download attempt. -/
theorem dest_prep_failure_swallowed_w :
    startJobFlow
        ([{ connectOk := true, rcloneInstalled := false, installOk := false,
            copyConfigOk := true, errMsg := "boom" }].map
          (fun fl => prepareDestinationServer (prepDestSteps fl))) ["dA"] =
      { jobFailed := false, workersRan := true, downloadsAttemptedOn := ["dA"],
        destsMarkedFailedAtPrep := [] } :=
  (dest_prep_failure_swallowed
    [{ connectOk := true, rcloneInstalled := false, installOk := false,
       copyConfigOk := true, errMsg := "boom" }] ["dA"]).2

/-- A remote command the download side issues on a destination host
(ssh.service.ts lines 591-660 and 717-773), one entry per command, in
program order; progress broadcasts and log lines are elided. -/
inductive DestCmd
  | download (destId fileName : String)        -- rclone download to /tmp/<f>
  | extractSingle (destId fileName : String)   -- unzip -o /tmp/<f> -d <destFolder>
  | removeStaging (destId fileName : String)   -- rm -f /tmp/<f>
  | stage (destId fileName : String)           -- mv /tmp/<f> <destFolder>/<f>
  | deleteFromStore (destId fileName : String) -- rclone deletefile on the store
  | bulkExtract (destId : String)              -- cd <destFolder> && unzip -o "<base>.part*.zip"
  | removeParts (destId : String)              -- rm "<base>.part*.zip"
deriving DecidableEq, Repr

/-- Whether a command runs an unzip. -/
def DestCmd.isExtract : DestCmd → Bool
  | extractSingle _ _ => true
  | bulkExtract _ => true
  | _ => false

/-- Model of `downloadFileToDestination` (ssh.service.ts lines 717-773)
as the ordered commands it runs for one uploaded file on one destination.
`failed` says whether an awaited call inside the `try` rejects — the
realistic point is the staging `mv` or `unzip` exec, since
`rcloneService.download` catches everything and resolves a status the
caller ignores (lines 731-739, rclone.service.ts 269-297).  On a
rejection the `catch` (lines 768-772) marks the slot failed and RETURNS
NORMALLY, so the worker moves on and the stage of that part never
happens. -/
def downloadFileToDestination (autoExtract needsSplit deleteFromDrive failed : Bool)
    (destId fileName : String) : List DestCmd :=
  if failed then
    [DestCmd.download destId fileName]
  else
    [DestCmd.download destId fileName] ++
      (if autoExtract ∧ ¬ needsSplit then
        [DestCmd.extractSingle destId fileName, DestCmd.removeStaging destId fileName]
      else
        [DestCmd.stage destId fileName]) ++
      (if deleteFromDrive then [DestCmd.deleteFromStore destId fileName] else [])

/-- Model of the download worker of `startJob` (ssh.service.ts lines
585-660).  The while loop handles uploaded files in order, awaiting all
destinations per file; `processedCount` is how many files the loop
handled before exiting — `files.length` normally, fewer when the
cancellation break (lines 592-596) fires.  The bulk-extract block (lines
628-650) runs UNCONDITIONALLY after the loop for a split job with
`autoExtract`: neither per-part failures (swallowed by the catch at
768-772) nor cancellation guards it. -/
def downloadWorker (files dests : List String)
    (autoExtract needsSplit deleteFromDrive : Bool)
    (failed : String → String → Bool) (processedCount : Nat) : List DestCmd :=
  ((files.take processedCount).flatMap (fun f =>
    dests.flatMap (fun d =>
      downloadFileToDestination autoExtract needsSplit deleteFromDrive (failed d f) d f))) ++
  (if autoExtract ∧ needsSplit then
    dests.flatMap (fun d => [DestCmd.bulkExtract d, DestCmd.removeParts d])
  else [])

/-- C4 counterexample: split + autoExtract, one part, one destination,
and the staging exec of that part rejects (for example the `mv` fails
because the session died); the catch marks the slot failed and returns,
the loop completes, and the unconditional bulk-extract block still runs
the `unzip` on the destination even though the part was never staged
there — an extract runs without every destination having staged every
part. -/
theorem split_extract_cex :
    DestCmd.bulkExtract "d1" ∈
      downloadWorker ["transfer_1.part001.zip"] ["d1"] true true false
        (fun _ _ => true) 1 ∧
    DestCmd.stage "d1" "transfer_1.part001.zip" ∉
      downloadWorker ["transfer_1.part001.zip"] ["d1"] true true false
        (fun _ _ => true) 1 := by
  decide

lemma downloadFileToDestination_split_eq (del : Bool) (d f : String) :
    downloadFileToDestination true true del false d f =
      [DestCmd.download d f, DestCmd.stage d f] ++
        (if del then [DestCmd.deleteFromStore d f] else []) := by
  cases del <;> rfl

/-- C4 amended: in a split run with `autoExtract` whose download loop
handles every part (no cancellation break) and in which no per-part
download/stage rejects, the worker's trace is a staging phase with no
extract command containing the stage (mv) of every part for every
destination, followed by a phase of only bulk extracts and part cleanups
— so on such runs no unzip starts until every destination has staged
every part, and per-part handling of split parts only downloads and
stages.  A per-part rejection or a cancel break voids the guarantee,
because the bulk block is unconditional. -/
theorem split_extract_after_all_staged (files dests : List String)
    (deleteFromDrive : Bool) (failed : String → String → Bool)
    (hok : ∀ d ∈ dests, ∀ f ∈ files, failed d f = false) :
    ∃ pre post,
      downloadWorker files dests true true deleteFromDrive failed files.length =
        pre ++ post ∧
      (∀ c ∈ pre, c.isExtract = false) ∧
      (∀ f ∈ files, ∀ d ∈ dests, DestCmd.stage d f ∈ pre) ∧
      (∀ c ∈ post, ∃ d ∈ dests, c = DestCmd.bulkExtract d ∨ c = DestCmd.removeParts d) := by
  refine ⟨files.flatMap (fun f =>
      dests.flatMap (fun d =>
        downloadFileToDestination true true deleteFromDrive (failed d f) d f)),
    dests.flatMap (fun d => [DestCmd.bulkExtract d, DestCmd.removeParts d]),
    by simp [downloadWorker, List.take_length], ?_, ?_, ?_⟩
  · intro c hc
    simp only [List.mem_flatMap] at hc
    obtain ⟨f, hf, d, hd, hcmd⟩ := hc
    rw [hok d hd f hf, downloadFileToDestination_split_eq] at hcmd
    rcases List.mem_append.mp hcmd with h | h
    · simp only [List.mem_cons, List.not_mem_nil, or_false] at h
      rcases h with rfl | rfl
      · rfl
      · rfl
    · cases deleteFromDrive
      · simp at h
      · simp only [if_true, List.mem_singleton] at h
        rw [h]
        rfl
  · intro f hf d hd
    refine List.mem_flatMap.mpr ⟨f, hf, List.mem_flatMap.mpr ⟨d, hd, ?_⟩⟩
    rw [hok d hd f hf, downloadFileToDestination_split_eq]
    simp
  · intro c hc
    simp only [List.mem_flatMap] at hc
    obtain ⟨d, hd, hcmd⟩ := hc
    simp only [List.mem_cons, List.not_mem_nil, or_false] at hcmd
    rcases hcmd with rfl | rfl
    · exact ⟨d, hd, Or.inl rfl⟩
    · exact ⟨d, hd, Or.inr rfl⟩

/-- C4 amended witness: a failure-free one-part, one-destination split
run stages the part in the trace. -/
theorem split_extract_after_all_staged_w :
    DestCmd.stage "d1" "transfer_1.part001.zip" ∈
      downloadWorker ["transfer_1.part001.zip"] ["d1"] true true false
        (fun _ _ => false) 1 := by
  obtain ⟨pre, post, heq, -, hstage, -⟩ :=
    split_extract_after_all_staged ["transfer_1.part001.zip"] ["d1"] false
      (fun _ _ => false) (fun _ _ _ _ => rfl)
  have h1 : ([("transfer_1.part001.zip" : String)]).length = 1 := rfl
  rw [← h1, heq]
  exact List.mem_append.mpr
    (Or.inl (hstage "transfer_1.part001.zip" (by simp) "d1" (by simp)))

/-- C9 amended witness: one visible file, limit 5, offset 0. -/
theorem listDirectory_spec_w :
    (listDirectoryModel [⟨"b.txt", false, 1, 2⟩] 5 0).total =
      (([⟨"b.txt", false, 1, 2⟩] : List RawEntry).filter
        (fun e => !startsWithDot e.filename)).length :=
  (listDirectory_spec [⟨"b.txt", false, 1, 2⟩] 5 0).1
